import Mathlib

/-!
Verification development for the focus-redirector options page
(src/options.js). Strings from the JavaScript source are embedded as
`List Char`; JavaScript numbers are embedded as exact rationals
(storage holds only JSON-serializable data, so NaN and the infinities
never occur as stored values; where the code checks `Number.isFinite`
the model uses an `Option` value with `none` standing for a
non-finite coercion result). Platform builtins used by the source
(`String.prototype.trim`, `toLowerCase`, the `Number` conversion,
`toFixed`, the WHATWG `URL` parser, `crypto.randomUUID`) are modelled
as noted on each definition; the WHATWG URL parser is kept abstract
as a function parameter.
-/

set_option maxRecDepth 8000

/-- Model of the characters removed by the JavaScript `trim` builtin
(restricted to the common ASCII whitespace actually produced by the
options form inputs). -/
def jsIsSpace (c : Char) : Bool :=
  c == ' ' || c == '\t' || c == '\n' || c == '\r'

/-- Model of `String.prototype.trim`: drop whitespace from both ends. -/
def jsTrim (s : List Char) : List Char :=
  ((s.dropWhile jsIsSpace).reverse.dropWhile jsIsSpace).reverse

/-- Model of `String.prototype.toLowerCase` on one character (ASCII
range; the hostnames this program manipulates are ASCII). -/
def charToLower (c : Char) : Char :=
  if 65 ≤ c.toNat ∧ c.toNat ≤ 90 then Char.ofNat (c.toNat + 32) else c

/-- Model of `String.prototype.toLowerCase`. -/
def toLowerCase (s : List Char) : List Char :=
  s.map charToLower

/-- Characters allowed by the label regular expression
`/^[a-z0-9-]+$/` in `validateHostname`. -/
def isLabelChar (c : Char) : Bool :=
  (decide (97 ≤ c.toNat) && decide (c.toNat ≤ 122)) ||
  (decide (48 ≤ c.toNat) && decide (c.toNat ≤ 57)) ||
  decide (c.toNat = 45)

/-- Result shape of `validateHostname`: `{valid: true, value}` or
`{valid: false, error}`. -/
inductive HostResult where
  | ok (value : List Char)
  | err (msg : String)
deriving DecidableEq

/-- Embedding of the per-label `for` loop of `validateHostname`
(lines 95-105 of src/options.js): returns the first label error. -/
def checkLabels : List (List Char) → Option String
  | [] => none
  | label :: rest =>
    if label = [] then some "Hostname labels cannot be empty."
    else if ¬ label.all isLabelChar then
      some "Hostname can only use letters, numbers, dots, and hyphens."
    else if label.head? = some '-' ∨ label.getLast? = some '-' then
      some "Hostname labels cannot start or end with hyphen."
    else checkLabels rest

/-- Embedding of `validateHostname` (src/options.js lines 79-108). -/
def validateHostname (hostname : List Char) : HostResult :=
  let normalized := toLowerCase (jsTrim hostname)
  if normalized = [] then .err "Hostname is required."
  else if normalized.any (fun c => c == '/' || c == ' ' || c == ':' || c == '?') then
    .err "Hostname must not include scheme, path, spaces, or query."
  else
    let parts := normalized.splitOn '.'
    if parts.length < 2 then .err "Hostname must include at least one dot."
    else
      match checkLabels parts with
      | some e => .err e
      | none => .ok normalized

/-- Abstract result of the WHATWG `new URL` platform parser: the
`protocol`, `hostname`, and `toString()` serialization the source
reads off the parsed object. -/
structure ParsedURL where
  protocol : List Char
  hostname : List Char
  serialized : List Char
deriving DecidableEq

/-- Result shape of `validateTargetUrl`: `{valid: true, value,
hostname}` or `{valid: false, error}`. -/
inductive UrlResult where
  | ok (value : List Char) (hostname : List Char)
  | err (msg : String)
deriving DecidableEq

/-- Embedding of `validateTargetUrl` (src/options.js lines 110-129),
parameterized by the external WHATWG URL parser (`new URL` returning
`none` models the constructor throwing). -/
def validateTargetUrl (parse : List Char → Option ParsedURL) (targetUrl : List Char) : UrlResult :=
  let trimmed := jsTrim targetUrl
  if trimmed = [] then .err "Target URL is required."
  else
    match parse trimmed with
    | none => .err "Target URL must be a valid absolute URL."
    | some parsed =>
      if parsed.protocol ≠ "http:".data ∧ parsed.protocol ≠ "https:".data then
        .err "Target URL must start with http:// or https://."
      else .ok parsed.serialized (toLowerCase parsed.hostname)

/-- A normalized redirect rule as produced by `validateRule` and
`loadRules`. -/
structure Rule where
  id : List Char
  enabled : Bool
  source_hostname : List Char
  target_url : List Char
deriving DecidableEq

/-- A draft rule as assembled by the UI code before validation. The
call sites (submit handler line 393, row editor line 284) always pass
string `id`, `source_hostname`, `target_url` and a boolean `enabled`;
an empty `id` is falsy in `rule.id || makeId()` and stands for a
missing id. -/
structure Draft where
  id : List Char
  enabled : Bool
  source_hostname : List Char
  target_url : List Char
deriving DecidableEq

/-- Result shape of `validateRule`: success carries the normalized
rule; failure carries either a `sourceError` or a `targetError`
(never both - the source object literals contain exactly one). -/
inductive RuleResult where
  | ok (normalized : Rule)
  | sourceErr (msg : String)
  | targetErr (msg : String)
deriving DecidableEq

/-- The `valid` field of a `validateRule` result. -/
def RuleResult.isValid : RuleResult → Bool
  | .ok _ => true
  | _ => false

/-- Embedding of `validateRule` (src/options.js lines 131-155). `mint`
is the value the `makeId()` platform call would return (a fresh
nonempty UUID string in the browser). -/
def validateRule (parse : List Char → Option ParsedURL) (mint : List Char) (rule : Draft) : RuleResult :=
  match validateHostname rule.source_hostname with
  | .err m => .sourceErr m
  | .ok hostValue =>
    match validateTargetUrl parse rule.target_url with
    | .err m => .targetErr m
    | .ok urlValue urlHost =>
      if urlHost = hostValue then
        .targetErr "Target URL hostname cannot match source hostname (self-loop)."
      else
        .ok { id := if rule.id = [] then mint else rule.id
              enabled := rule.enabled
              source_hostname := hostValue
              target_url := urlValue }

/-- Decimal digit test, modelling the character class of the
ECMAScript StrDecimalLiteral grammar. -/
def isDigitChar (c : Char) : Bool :=
  decide (48 ≤ c.toNat) && decide (c.toNat ≤ 57)

/-- Hexadecimal digit test for the 0x literal form accepted by the
`Number` builtin. -/
def isHexDigitChar (c : Char) : Bool :=
  isDigitChar c ||
  (decide (97 ≤ c.toNat) && decide (c.toNat ≤ 102)) ||
  (decide (65 ≤ c.toNat) && decide (c.toNat ≤ 70))

/-- Numeric value of a hexadecimal digit. -/
def hexVal (c : Char) : Nat :=
  if isDigitChar c then c.toNat - 48
  else if 97 ≤ c.toNat then c.toNat - 87
  else c.toNat - 55

/-- Value of a list of base-`b` digit values read left to right. -/
def digitsFold (b : Nat) (vals : List Nat) : Nat :=
  vals.foldl (fun a v => a * b + v) 0

/-- Value of a decimal digit string. -/
def decValue (ds : List Char) : Nat :=
  digitsFold 10 (ds.map (fun c => c.toNat - 48))

/-- Optional exponent tail of the ECMAScript decimal literal grammar;
returns `none` when the remaining characters are not a valid
(possibly empty) exponent part, modelling a NaN outcome. -/
def parseExpTail : List Char → Option Int
  | [] => some 0
  | c :: r =>
    if c = 'e' ∨ c = 'E' then
      match r with
      | '+' :: d => if d ≠ [] ∧ d.all isDigitChar then some (decValue d) else none
      | '-' :: d => if d ≠ [] ∧ d.all isDigitChar then some (-(decValue d : Int)) else none
      | d => if d ≠ [] ∧ d.all isDigitChar then some (decValue d) else none
    else none

/-- Unsigned decimal literal (digits, optional fraction, optional
exponent), modelling StrUnsignedDecimalLiteral evaluated exactly over
the rationals. -/
def parseUnsignedDec (s : List Char) : Option ℚ :=
  let intPart := s.takeWhile isDigitChar
  let rest := s.drop intPart.length
  match rest with
  | '.' :: r2 =>
    let fracPart := r2.takeWhile isDigitChar
    let rest2 := r2.drop fracPart.length
    if intPart = [] ∧ fracPart = [] then none
    else
      (parseExpTail rest2).map fun e =>
        ((decValue intPart : ℚ) + (decValue fracPart : ℚ) / (10 : ℚ) ^ fracPart.length) * (10 : ℚ) ^ e
  | _ =>
    if intPart = [] then none
    else (parseExpTail rest).map fun e => (decValue intPart : ℚ) * (10 : ℚ) ^ e

/-- Unsigned body of a numeric string: the Infinity literal coerces to
a non-finite value, modelled as `none` like NaN (the source only ever
inspects such results through `Number.isFinite`). -/
def parseSignlessBody (s : List Char) : Option ℚ :=
  if s = "Infinity".data then none else parseUnsignedDec s

/-- Model of the `Number(string)` platform conversion, evaluated
exactly over the rationals: `none` stands for a result that fails
`Number.isFinite` (NaN or an infinity). Overflow of the double range
and rounding of the decimal literal to binary are not modelled; on
every concrete input appearing in this development the double result
is exact enough that the code under verification behaves identically. -/
def jsStrToNumber (s : List Char) : Option ℚ :=
  let t := jsTrim s
  if t = [] then some 0
  else
    match t with
    | '0' :: 'x' :: r => if r ≠ [] ∧ r.all isHexDigitChar then some (digitsFold 16 (r.map hexVal)) else none
    | '0' :: 'X' :: r => if r ≠ [] ∧ r.all isHexDigitChar then some (digitsFold 16 (r.map hexVal)) else none
    | '0' :: 'o' :: r => if r ≠ [] ∧ r.all (fun c => isDigitChar c && decide (c.toNat ≤ 55)) then some (digitsFold 8 (r.map (fun c => c.toNat - 48))) else none
    | '0' :: 'O' :: r => if r ≠ [] ∧ r.all (fun c => isDigitChar c && decide (c.toNat ≤ 55)) then some (digitsFold 8 (r.map (fun c => c.toNat - 48))) else none
    | '0' :: 'b' :: r => if r ≠ [] ∧ r.all (fun c => c == '0' || c == '1') then some (digitsFold 2 (r.map (fun c => c.toNat - 48))) else none
    | '0' :: 'B' :: r => if r ≠ [] ∧ r.all (fun c => c == '0' || c == '1') then some (digitsFold 2 (r.map (fun c => c.toNat - 48))) else none
    | '+' :: r => parseSignlessBody r
    | '-' :: r => (parseSignlessBody r).map (fun q => -q)
    | _ => parseSignlessBody t

/-- Model of `x.toFixed(2)` composed with `Number(...)` as used in
`validateHourlyRate`: round half away from zero at two decimals
(ECMAScript ToFixed negates first, then on a tie picks the larger
candidate). -/
def round2 (q : ℚ) : ℚ :=
  if q < 0 then -((⌊-q * 100 + 1 / 2⌋ : ℚ) / 100) else (⌊q * 100 + 1 / 2⌋ : ℚ) / 100

/-- Result shape of `validateHourlyRate`. -/
inductive RateResult where
  | valid (value : Option ℚ)
  | err (msg : String)
deriving DecidableEq

/-- Embedding of `validateHourlyRate` (src/options.js lines 182-196). -/
def validateHourlyRate (rawValue : List Char) : RateResult :=
  let trimmed := jsTrim rawValue
  if trimmed = [] then .valid none
  else
    match jsStrToNumber trimmed with
    | none => .err "Hourly rate must be a valid number."
    | some parsed =>
      if parsed < 0 then .err "Hourly rate cannot be negative."
      else .valid (some (round2 parsed))

/-- JSON-serializable JavaScript values as held by `chrome.storage`
(`undefined` added for missing-property reads). NaN and the
infinities cannot be stored (JSON serialization turns them into
`null`), so `num` carries an exact rational. -/
inductive JSValue where
  | undefined
  | null
  | bool (b : Bool)
  | num (q : ℚ)
  | str (s : List Char)
  | arr (items : List JSValue)
  | obj (fields : List (List Char × JSValue))

/-- JavaScript truthiness of a value. -/
def truthy : JSValue → Bool
  | .undefined => false
  | .null => false
  | .bool b => b
  | .num q => decide (q ≠ 0)
  | .str s => decide (s ≠ [])
  | .arr _ => true
  | .obj _ => true

/-- Whether `typeof v === "object"` holds together with truthiness,
i.e. the `raw && typeof raw === "object"` guard pattern of the
normalizers (`null` is falsy, so it never passes the combined guard). -/
def isObjectLike : JSValue → Bool
  | .obj _ => true
  | .arr _ => true
  | _ => false

/-- First binding of a key in an object literal field list (objects in
this model never repeat keys); a missing property reads as
`undefined`. -/
def lookupField : List (List Char × JSValue) → List Char → JSValue
  | [], _ => .undefined
  | (k, v) :: rest, key => if k = key then v else lookupField rest key

/-- Property read `v[key]` for a value already known not to be
nullish: objects look the key up, every other value has no such own
property and reads `undefined`. -/
def objField (v : JSValue) (key : List Char) : JSValue :=
  match v with
  | .obj fields => lookupField fields key
  | _ => .undefined

/-- Property read `v[key]` as an operation that can throw: reading a
property of `undefined` or `null` raises a TypeError in JavaScript,
modelled with `Except`. -/
def jsGetField (v : JSValue) (key : List Char) : Except String JSValue :=
  match v with
  | .undefined => .error "TypeError: cannot read properties of undefined"
  | .null => .error "TypeError: cannot read properties of null"
  | _ => .ok (objField v key)

/-- Decimal digits of a rational with terminating decimal expansion,
truncated at `fuel` digits otherwise (JavaScript prints a shortest
round-trip decimal for doubles; every number this program stores
originates from JSON text or `toFixed`, hence terminates). -/
def fracDigits : Nat → Nat → Nat → List Char
  | _, _, 0 => []
  | fr, den, fuel + 1 =>
    if fr = 0 then []
    else Nat.digitChar (fr * 10 / den) :: fracDigits (fr * 10 % den) den fuel

/-- Model of the `String(number)` conversion for the decimal-
representable rationals this program manipulates. -/
def numToString (q : ℚ) : List Char :=
  let n := q.num.natAbs
  let d := q.den
  let body := Nat.toDigits 10 (n / d) ++
    (if n % d = 0 then [] else '.' :: fracDigits (n % d) d 20)
  if q < 0 then '-' :: body else body

mutual

/-- Model of the `String(value)` conversion. -/
def jsToString : JSValue → List Char
  | .undefined => "undefined".data
  | .null => "null".data
  | .bool true => "true".data
  | .bool false => "false".data
  | .num q => numToString q
  | .str s => s
  | .obj _ => "[object Object]".data
  | .arr items => jsArrBody items

/-- Model of `Array.prototype.toString` (elements joined with commas,
nullish elements contributing the empty string). -/
def jsArrBody : List JSValue → List Char
  | [] => []
  | [.undefined] => []
  | [.null] => []
  | [v] => jsToString v
  | .undefined :: rest => ',' :: jsArrBody rest
  | .null :: rest => ',' :: jsArrBody rest
  | v :: rest => jsToString v ++ ',' :: jsArrBody rest

end

/-- Model of the `Number(value)` conversion; `none` stands for a
result rejected by `Number.isFinite`. -/
def jsToNumber : JSValue → Option ℚ
  | .undefined => none
  | .null => some 0
  | .bool b => some (if b then 1 else 0)
  | .num q => some q
  | .str s => jsStrToNumber s
  | .arr items => jsStrToNumber (jsToString (.arr items))
  | .obj fields => jsStrToNumber (jsToString (.obj fields))

/-- The `metrics` in-process state: `per_rule` is kept as the raw
object reference, exactly as the source does. -/
structure Metrics where
  total_redirects : ℚ
  per_rule : JSValue

/-- The `settings` in-process state; `none` models `hourly_rate:
null` (the source only ever inspects it through `Number.isFinite`,
which `null` fails). -/
structure Settings where
  hourly_rate : Option ℚ
deriving DecidableEq

/-- Embedding of `normalizeMetrics` (src/options.js lines 161-169):
`Number.isFinite(x)` without coercion holds exactly for stored
numbers. -/
def normalizeMetrics (rawMetrics : JSValue) : Metrics :=
  if isObjectLike rawMetrics then
    let totalRedirects : ℚ :=
      match objField rawMetrics "total_redirects".data with
      | .num q => q
      | _ => 0
    let perRuleRaw := objField rawMetrics "per_rule".data
    let perRule := if truthy perRuleRaw && isObjectLike perRuleRaw then perRuleRaw else .obj []
    { total_redirects := totalRedirects, per_rule := perRule }
  else { total_redirects := 0, per_rule := .obj [] }

/-- Embedding of `normalizeSettings` (src/options.js lines 171-180):
the stored `hourly_rate` is coerced with `Number(...)` before the
finiteness and sign checks. -/
def normalizeSettings (rawSettings : JSValue) : Settings :=
  if isObjectLike rawSettings then
    match jsToNumber (objField rawSettings "hourly_rate".data) with
    | none => { hourly_rate := none }
    | some rate => if rate < 0 then { hourly_rate := none } else { hourly_rate := some rate }
  else { hourly_rate := none }

/-- Storage key for the rule list (src/options.js line 1). -/
def STORAGE_KEY : List Char := "redirect_rules".data

/-- Storage key for the metrics object (src/options.js line 2). -/
def METRICS_KEY : List Char := "redirect_metrics".data

/-- Storage key for the settings object (src/options.js line 3). -/
def SETTINGS_KEY : List Char := "redirect_settings".data

/-- The fixed per-redirect productivity constant (src/options.js
line 4). -/
def MINUTES_SAVED_PER_REDIRECT : ℚ := 35 / 2

/-- Lookup in the key-value mapping a storage read resolves with. -/
def assocLookup : List (List Char × JSValue) → List Char → Option JSValue
  | [], _ => none
  | (k, v) :: rest, key => if k = key then some v else assocLookup rest key

/-- Read `result[key]` from a storage-get result: a missing key reads
`undefined`. -/
def assocGetD (m : List (List Char × JSValue)) (key : List Char) : JSValue :=
  (assocLookup m key).getD .undefined

/-- Embedding of `storageGet` (src/options.js lines 26-37): the
backend either delivers a mapping or fails (`chrome.runtime.lastError`
set, modelled by `none`); a failed read resolves with the empty
mapping, so the caller never observes an error. -/
def storageGet (readResult : Option (List (List Char × JSValue))) : List (List Char × JSValue) :=
  readResult.getD []

/-- Embedding of `storageSet` (src/options.js lines 39-49): a backend
write failure (modelled by `some message`) rejects the promise with
that message; otherwise the write resolves. -/
def storageSet (writeError : Option String) : Except String Unit :=
  match writeError with
  | some m => .error m
  | none => .ok ()

/-- Decoding of one stored item inside the `stored.map` callback of
`loadRules` (src/options.js lines 359-364); `minted` is the fresh id
`makeId()` would return for this item. Reading a property of a
nullish item throws, which propagates out of `map`. -/
def decodeStoredItem (minted : List Char) (item : JSValue) : Except String Rule := do
  let idv ← jsGetField item "id".data
  let env ← jsGetField item "enabled".data
  let sv ← jsGetField item "source_hostname".data
  let tv ← jsGetField item "target_url".data
  .ok { id := if truthy idv then jsToString idv else minted
        enabled := truthy env
        source_hostname := if truthy sv then jsToString sv else []
        target_url := if truthy tv then jsToString tv else [] }

/-- The `stored.map(...)` traversal of `loadRules`; `mint i` is the
fresh id available for the item at position `i`. -/
def decodeStoredItems (mint : Nat → List Char) : Nat → List JSValue → Except String (List Rule)
  | _, [] => .ok []
  | i, item :: rest => do
    let r ← decodeStoredItem (mint i) item
    let rs ← decodeStoredItems mint (i + 1) rest
    .ok (r :: rs)

/-- Embedding of the coercion core of `loadRules` (src/options.js
lines 356-366): a stored value that is not an array is replaced by
the empty list, array items are mapped defensively. -/
def loadRulesPure (mint : Nat → List Char) (storedVal : JSValue) : Except String (List Rule) :=
  match storedVal with
  | .arr items => decodeStoredItems mint 0 items
  | _ => .ok []

/-- Embedding of `loadRules` against a storage backend read outcome:
fetch the rules key through `storageGet`, then coerce. -/
def loadRulesModel (readResult : Option (List (List Char × JSValue))) (mint : Nat → List Char) :
    Except String (List Rule) :=
  loadRulesPure mint (assocGetD (storageGet readResult) STORAGE_KEY)

/-- The storage representation of one in-process rule, as
`persistRules` serializes it (rules in memory carry exactly the four
fields written here). -/
def encodeRule (r : Rule) : JSValue :=
  .obj [("id".data, .str r.id),
        ("enabled".data, .bool r.enabled),
        ("source_hostname".data, .str r.source_hostname),
        ("target_url".data, .str r.target_url)]

/-- The payload `persistRules` writes (src/options.js lines 157-159):
the whole current rule list under the rules key. -/
def persistRulesPayload (rules : List Rule) : List (List Char × JSValue) :=
  [(STORAGE_KEY, .arr (rules.map encodeRule))]

/-- The in-process ambient state of the options page (src/options.js
lines 18-20). -/
structure AppState where
  rules : List Rule
  metrics : Metrics
  settings : Settings

/-- Embedding of the `chrome.storage.onChanged` listener
(src/options.js lines 427-443). `changes` maps each changed key to
its `newValue`; `usingSync` is `Boolean(chrome.storage.sync)`, the
area this process is configured to use for rules and settings. -/
def handleStorageChanged (usingSync : Bool) (changes : List (List Char × JSValue))
    (areaName : List Char) (st : AppState) : AppState :=
  let st1 :=
    if areaName = "local".data then
      match assocLookup changes METRICS_KEY with
      | some newValue => { st with metrics := normalizeMetrics newValue }
      | none => st
    else st
  if (usingSync = true ∧ areaName = "sync".data) ∨ (usingSync = false ∧ areaName = "local".data) then
    match assocLookup changes SETTINGS_KEY with
    | some newValue => { st1 with settings := normalizeSettings newValue }
    | none => st1
  else st1

/-- Sign-magnitude decimal rendering of an integer, as JavaScript
prints integral numbers in template literals. -/
def intToString (i : Int) : List Char :=
  if i < 0 then '-' :: Nat.toDigits 10 i.natAbs else Nat.toDigits 10 i.natAbs

/-- Left-pad a digit string with zeros to width `w`. -/
def padZeros (w : Nat) (ds : List Char) : List Char :=
  List.replicate (w - ds.length) '0' ++ ds

/-- Digits of `a` with the last `d` digits behind a decimal point. -/
def fixedDigits (a : Nat) (d : Nat) : List Char :=
  if d = 0 then Nat.toDigits 10 a
  else Nat.toDigits 10 (a / 10 ^ d) ++ '.' :: padZeros d (Nat.toDigits 10 (a % 10 ^ d))

/-- Model of `x.toFixed(d)` (ECMAScript ToFixed): strip the sign,
round half away from zero at `d` decimals, re-attach the sign. -/
def toFixedStr (d : Nat) (q : ℚ) : List Char :=
  if q < 0 then '-' :: fixedDigits (⌊-q * (10 : ℚ) ^ d + 1 / 2⌋).toNat d
  else fixedDigits (⌊q * (10 : ℚ) ^ d + 1 / 2⌋).toNat d

/-- Comma grouping of a reversed digit string in blocks of three. -/
def group3Rev : List Char → List Char
  | a :: b :: c :: d :: rest => a :: b :: c :: ',' :: group3Rev (d :: rest)
  | l => l

/-- Comma grouping of an integer digit string, as the `Intl` currency
formatter prints it. -/
def group3 (ds : List Char) : List Char :=
  (group3Rev ds.reverse).reverse

/-- Embedding of `formatCurrency` (src/options.js lines 198-205): the
`Intl.NumberFormat` USD form with exactly two fraction digits
(half-away-from-zero rounding, comma grouping, leading minus sign). -/
def formatCurrency (value : ℚ) : List Char :=
  let a := (⌊|value| * 100 + 1 / 2⌋).toNat
  let body := '$' :: group3 (Nat.toDigits 10 (a / 100)) ++ '.' :: padZeros 2 (Nat.toDigits 10 (a % 100))
  if value < 0 then '-' :: body else body

/-- JavaScript truncating division, the rounding of the `%` operator. -/
def jsTrunc (q : ℚ) : Int :=
  if q < 0 then ⌈q⌉ else ⌊q⌋

/-- JavaScript remainder `a % b` (sign of the dividend). -/
def jsMod (a b : ℚ) : ℚ :=
  a - b * (jsTrunc (a / b) : ℚ)

/-- Model of `Math.round`: half toward positive infinity. -/
def jsRound (q : ℚ) : Int :=
  ⌊q + 1 / 2⌋

/-- Embedding of `formatDurationFromMinutes` (src/options.js lines
207-221). -/
def formatDurationFromMinutes (totalMinutes : ℚ) : List Char :=
  if totalMinutes < 60 then toFixedStr 1 totalMinutes ++ "m".data
  else if totalMinutes < 1440 then
    let hours := ⌊totalMinutes / 60⌋
    let minutes := jsRound (jsMod totalMinutes 60)
    if 0 < minutes then intToString hours ++ "h ".data ++ intToString minutes ++ "m".data
    else intToString hours ++ "h".data
  else
    let days := ⌊totalMinutes / 1440⌋
    let hours := jsRound (jsMod totalMinutes 1440 / 60)
    if 0 < hours then intToString days ++ "d ".data ++ intToString hours ++ "h".data
    else intToString days ++ "d".data

/-- Embedding of `formatMoneyCompact` (src/options.js lines 223-228). -/
def formatMoneyCompact (value : ℚ) : List Char :=
  if 1000 ≤ value then '$' :: toFixedStr 1 (value / 1000) ++ "k".data
  else formatCurrency value

/-- The minutes-saved computation of `renderMetricsSummary`
(src/options.js line 232). -/
def minutesSaved (metrics : Metrics) : ℚ :=
  metrics.total_redirects * MINUTES_SAVED_PER_REDIRECT

/-- The time-saved text rendered by `renderMetricsSummary`
(src/options.js line 233). -/
def renderTimeSavedText (metrics : Metrics) : List Char :=
  formatDurationFromMinutes (minutesSaved metrics)

/-- The money-saved text rendered by `renderMetricsSummary`
(src/options.js lines 235-241): a set rate always passes the
`Number.isFinite` guard (only finite rates are ever stored), an unset
rate renders the zero-currency literal. -/
def renderMoneySavedText (settings : Settings) (metrics : Metrics) : List Char :=
  match settings.hourly_rate with
  | some rate => formatMoneyCompact (minutesSaved metrics * (rate / 60))
  | none => "$0.00".data

/-- Index of the first rule with the given id, the
`rules.findIndex((item) => item.id === rule.id)` step of the row
editor (src/options.js line 301). -/
def findIndexById : List Rule → List Char → Option Nat
  | [], _ => none
  | r :: rest, i => if r.id = i then some 0 else (findIndexById rest i).map (· + 1)

/-- Outcome of one `updateRuleFromInputs` invocation: the resulting
in-process rule list, and the list handed to `persistRules` when a
persist was attempted (`none` when the handler returned early). -/
structure UpdateOutcome where
  rules : List Rule
  persisted : Option (List Rule)
deriving DecidableEq

/-- Embedding of `updateRuleFromInputs` (src/options.js lines
283-322). `rule` is the row closure value, the three inputs are the
current field values; `allowPersistOnInvalid` is true exactly for the
enabled-checkbox change event. In the invalid-persist branch the
draft is written back with the hostname trimmed and lowercased and
the target trimmed (`String(s || "")` is the identity on the string
inputs involved, including the empty string). -/
def updateRuleFromInputs (parse : List Char → Option ParsedURL) (mint : List Char)
    (allowPersistOnInvalid : Bool) (rules : List Rule) (rule : Rule)
    (enabledInput : Bool) (sourceInput targetInput : List Char) : UpdateOutcome :=
  let draft : Draft :=
    { id := rule.id, enabled := enabledInput
      source_hostname := sourceInput, target_url := targetInput }
  let validation := validateRule parse mint draft
  if validation.isValid = false ∧ allowPersistOnInvalid = false then
    { rules := rules, persisted := none }
  else
    match findIndexById rules rule.id with
    | none => { rules := rules, persisted := none }
    | some index =>
      let newRule :=
        match validation with
        | .ok n => n
        | _ => { id := rule.id, enabled := enabledInput
                 source_hostname := toLowerCase (jsTrim sourceInput)
                 target_url := jsTrim targetInput }
      let rules2 := rules.set index newRule
      { rules := rules2, persisted := some rules2 }

/-- Message surfaced by the add-rule submit handler. -/
inductive SubmitMessage where
  | success
  | invalid (msg : String)
  | writeFailed (msg : String)
deriving DecidableEq

/-- Embedding of the `addRuleForm` submit handler (src/options.js
lines 390-417): `mint` is the `makeId()` draft id, `mintV` the id
`validateRule` would mint (unused for a truthy draft id), and
`writeError` the backend outcome of the `persistRules` write. The
draft is pushed into the in-process list before the write is awaited
and is not rolled back on failure. -/
def addRuleSubmit (parse : List Char → Option ParsedURL) (mint mintV : List Char)
    (writeError : Option String) (rules : List Rule)
    (sourceInput targetInput : List Char) : List Rule × SubmitMessage :=
  let draft : Draft :=
    { id := mint, enabled := true
      source_hostname := sourceInput, target_url := targetInput }
  match validateRule parse mintV draft with
  | .sourceErr m => (rules, .invalid m)
  | .targetErr m => (rules, .invalid m)
  | .ok normalized =>
    let rules2 := rules ++ [normalized]
    match storageSet writeError with
    | .ok _ => (rules2, .success)
    | .error m => (rules2, .writeFailed m)

/-- Sample instantiation of the abstract external URL parser, used
only to evaluate theorems on concrete inputs. -/
def sampleParse (s : List Char) : Option ParsedURL :=
  if s = "http://example.com".data then
    some { protocol := "http:".data, hostname := "example.com".data,
           serialized := "http://example.com/".data }
  else if s = "https://new.example.com/path".data then
    some { protocol := "https:".data, hostname := "new.example.com".data,
           serialized := "https://new.example.com/path".data }
  else if s = "http://b.example".data then
    some { protocol := "http:".data, hostname := "b.example".data,
           serialized := "http://b.example/".data }
  else none

/-- C1: for every draft rule, `validateRule` first runs hostname
validation and on failure returns invalid with only a `sourceError`
(for every URL parser, so the target URL is never consulted); with a
valid hostname and an invalid target URL it returns invalid with only
a `targetError`; the self-loop comparison happens only when both
individually validate, and on success the normalized rule carries the
draft id when present and a freshly minted one otherwise. -/
theorem validateRule_order_spec (mint : List Char) (draft : Draft) :
    (∀ (parse : List Char → Option ParsedURL) m,
        validateHostname draft.source_hostname = .err m →
        validateRule parse mint draft = .sourceErr m)
    ∧ (∀ (parse : List Char → Option ParsedURL) v m,
        validateHostname draft.source_hostname = .ok v →
        validateTargetUrl parse draft.target_url = .err m →
        validateRule parse mint draft = .targetErr m)
    ∧ (∀ (parse : List Char → Option ParsedURL) v u h,
        validateHostname draft.source_hostname = .ok v →
        validateTargetUrl parse draft.target_url = .ok u h →
        h = v →
        validateRule parse mint draft =
          .targetErr "Target URL hostname cannot match source hostname (self-loop).")
    ∧ (∀ (parse : List Char → Option ParsedURL) v u h,
        validateHostname draft.source_hostname = .ok v →
        validateTargetUrl parse draft.target_url = .ok u h →
        h ≠ v →
        validateRule parse mint draft =
          .ok { id := if draft.id = [] then mint else draft.id
                enabled := draft.enabled
                source_hostname := v
                target_url := u }) := by
  refine ⟨?_, ?_, ?_, ?_⟩
  · intro parse m h
    simp [validateRule, h]
  · intro parse v m h1 h2
    simp [validateRule, h1, h2]
  · intro parse v u h h1 h2 he
    simp [validateRule, h1, h2, he]
  · intro parse v u h h1 h2 hne
    simp [validateRule, h1, h2, hne]

/-- Concrete evaluation of `validateRule_order_spec`: an empty
hostname fails with only a source error regardless of the parser, and
a rule from example.com to http://example.com fails as a self-loop. -/
theorem validateRule_order_spec_witness :
    validateRule sampleParse "w1".data
      { id := [], enabled := true, source_hostname := [], target_url := "x".data } =
      .sourceErr "Hostname is required."
    ∧ validateRule sampleParse "w1".data
      { id := "r9".data, enabled := true, source_hostname := "example.com".data,
        target_url := "http://example.com".data } =
      .targetErr "Target URL hostname cannot match source hostname (self-loop)." :=
  ⟨(validateRule_order_spec "w1".data _).1 sampleParse _ (by decide),
   (validateRule_order_spec "w1".data _).2.2.1 sampleParse "example.com".data
     "http://example.com/".data "example.com".data (by decide) (by decide) rfl⟩

/-- C7: the storage change handler never touches the in-process rule
list; a change to the metrics key delivered for the local area
replaces in-process metrics with the normalized new value (whoever
wrote it); a change to the settings key delivered for the area this
process is configured to use replaces in-process settings with the
normalized new value. -/
theorem handleStorageChanged_spec (usingSync : Bool) (changes : List (List Char × JSValue))
    (areaName : List Char) (st : AppState) :
    (handleStorageChanged usingSync changes areaName st).rules = st.rules
    ∧ (∀ nv, areaName = "local".data → assocLookup changes METRICS_KEY = some nv →
        (handleStorageChanged usingSync changes areaName st).metrics = normalizeMetrics nv)
    ∧ (∀ nv,
        ((usingSync = true ∧ areaName = "sync".data) ∨
         (usingSync = false ∧ areaName = "local".data)) →
        assocLookup changes SETTINGS_KEY = some nv →
        (handleStorageChanged usingSync changes areaName st).settings = normalizeSettings nv) := by
  by_cases hl : areaName = "local".data <;>
  by_cases hs : (usingSync = true ∧ areaName = "sync".data) ∨
      (usingSync = false ∧ areaName = "local".data) <;>
  cases hm : assocLookup changes METRICS_KEY <;>
  cases hset : assocLookup changes SETTINGS_KEY <;>
  refine ⟨?_, ?_, ?_⟩ <;>
  simp_all [handleStorageChanged] <;>
  (try (split <;> rfl))

/-- Concrete evaluation of `handleStorageChanged_spec`: a local-area
metrics change replaces metrics with the normalized new value. -/
theorem handleStorageChanged_spec_witness :
    (handleStorageChanged false [(METRICS_KEY, JSValue.obj [])] "local".data
        { rules := [], metrics := { total_redirects := 3, per_rule := .obj [] },
          settings := { hourly_rate := none } }).metrics =
      normalizeMetrics (JSValue.obj []) :=
  (handleStorageChanged_spec false [(METRICS_KEY, JSValue.obj [])] "local".data
      { rules := [], metrics := { total_redirects := 3, per_rule := .obj [] },
        settings := { hourly_rate := none } }).2.1 (JSValue.obj []) rfl rfl

/-- C8: a failed storage read resolves with the empty mapping, so
`loadRules` sees the default empty list rather than an error; a
failed storage write rejects with its message (one attempt, no
retry in the model); and after a write failure the add-rule handler
keeps the newly pushed rule in the in-process list while surfacing
the failure. -/
theorem storage_error_policy_spec :
    storageGet none = []
    ∧ (∀ mint, loadRulesModel none mint = .ok [])
    ∧ (∀ m, storageSet (some m) = .error m)
    ∧ (∀ (parse : List Char → Option ParsedURL) mint mintV m rules s t n,
        validateRule parse mintV
            { id := mint, enabled := true, source_hostname := s, target_url := t } = .ok n →
        addRuleSubmit parse mint mintV (some m) rules s t = (rules ++ [n], .writeFailed m)) := by
  refine ⟨rfl, fun _ => rfl, fun _ => rfl, ?_⟩
  intro parse mint mintV m rules s t n h
  simp [addRuleSubmit, h, storageSet]

/-- Concrete evaluation of `storage_error_policy_spec`: a valid new
rule stays in the list after a failed persist. -/
theorem storage_error_policy_spec_witness :
    addRuleSubmit sampleParse "w2".data "w3".data (some "QUOTA_BYTES exceeded") []
        "a.example".data "http://b.example".data =
      ([{ id := "w2".data, enabled := true, source_hostname := "a.example".data,
          target_url := "http://b.example/".data }],
       .writeFailed "QUOTA_BYTES exceeded") :=
  storage_error_policy_spec.2.2.2 sampleParse "w2".data "w3".data "QUOTA_BYTES exceeded" []
    "a.example".data "http://b.example".data _ (by decide)

/-- C10: when a per-row draft fails `validateRule`, an edit coming
from the hostname or target input (which does not allow persisting an
invalid draft) leaves the rule list unchanged and persists nothing,
while an enabled-checkbox change writes the invalid draft - hostname
trimmed and lowercased, target trimmed - at the position found for
the rule id and persists the whole updated list. -/
theorem updateRuleFromInputs_invalid_spec (parse : List Char → Option ParsedURL)
    (mint : List Char) (rules : List Rule) (rule : Rule) (e : Bool) (s t : List Char)
    (hinv : (validateRule parse mint
        { id := rule.id, enabled := e, source_hostname := s, target_url := t }).isValid = false) :
    updateRuleFromInputs parse mint false rules rule e s t = { rules := rules, persisted := none }
    ∧ (∀ i, findIndexById rules rule.id = some i →
        updateRuleFromInputs parse mint true rules rule e s t =
          { rules := rules.set i
              { id := rule.id, enabled := e,
                source_hostname := toLowerCase (jsTrim s), target_url := jsTrim t }
            persisted := some (rules.set i
              { id := rule.id, enabled := e,
                source_hostname := toLowerCase (jsTrim s), target_url := jsTrim t }) }) := by
  constructor
  · simp [updateRuleFromInputs, hinv]
  · intro i hi
    rcases hv : validateRule parse mint
        { id := rule.id, enabled := e, source_hostname := s, target_url := t } with n | m | m
    · rw [hv] at hinv; simp [RuleResult.isValid] at hinv
    · simp [updateRuleFromInputs, hv, hi, RuleResult.isValid]
    · simp [updateRuleFromInputs, hv, hi, RuleResult.isValid]

/-- Concrete evaluation of `updateRuleFromInputs_invalid_spec`: an
invalid hostname edit is not persisted, while the same draft is
written and persisted on a checkbox change. -/
theorem updateRuleFromInputs_invalid_spec_witness :
    updateRuleFromInputs sampleParse "w4".data false
        [{ id := "r1".data, enabled := true, source_hostname := "a.example".data,
           target_url := "http://b.example/".data }]
        { id := "r1".data, enabled := true, source_hostname := "a.example".data,
          target_url := "http://b.example/".data }
        false "NoDot".data "http://b.example".data =
      { rules := [{ id := "r1".data, enabled := true, source_hostname := "a.example".data,
                    target_url := "http://b.example/".data }], persisted := none }
    ∧ updateRuleFromInputs sampleParse "w4".data true
        [{ id := "r1".data, enabled := true, source_hostname := "a.example".data,
           target_url := "http://b.example/".data }]
        { id := "r1".data, enabled := true, source_hostname := "a.example".data,
          target_url := "http://b.example/".data }
        false "NoDot".data "http://b.example".data =
      { rules := [{ id := "r1".data, enabled := false, source_hostname := "nodot".data,
                    target_url := "http://b.example".data }]
        persisted := some [{ id := "r1".data, enabled := false, source_hostname := "nodot".data,
                             target_url := "http://b.example".data }] } := by
  have h := updateRuleFromInputs_invalid_spec sampleParse "w4".data
    [{ id := "r1".data, enabled := true, source_hostname := "a.example".data,
       target_url := "http://b.example/".data }]
    { id := "r1".data, enabled := true, source_hostname := "a.example".data,
      target_url := "http://b.example/".data }
    false "NoDot".data "http://b.example".data (by decide)
  exact ⟨h.1, by simpa using h.2 0 (by decide)⟩

/-- The truthiness coercion `String(s || "")` used by the stored-item
map is the identity on strings. -/
theorem truthy_str_roundtrip (s : List Char) :
    (if truthy (.str s) then jsToString (.str s) else []) = s := by
  by_cases h : s = [] <;> simp [truthy, jsToString, h]

/-- Decoding the stored form of a rule with a nonempty id recovers the
rule exactly. -/
theorem decodeStoredItem_encodeRule (minted : List Char) (r : Rule) (hid : r.id ≠ []) :
    decodeStoredItem minted (encodeRule r) = .ok r := by
  obtain ⟨ri, re, rs, rt⟩ := r
  have hsv := truthy_str_roundtrip rs
  have htv := truthy_str_roundtrip rt
  simp only [decodeStoredItem, encodeRule, jsGetField, objField, lookupField,
    Except.bind, bind] at *
  simp +decide [truthy, hid, jsToString, hsv, htv] at *

/-- C2: a rule accepted and normalized by `validateRule` (with the
nonempty fresh id `makeId` supplies), persisted via the
`persistRules` payload and reloaded through `loadRules` from a
storage backend returning exactly what was written, comes back with
identical id, enabled, source_hostname and target_url. -/
theorem persist_load_roundtrip_spec (parse : List Char → Option ParsedURL)
    (mint : List Char) (mintF : Nat → List Char) (draft : Draft) (r : Rule)
    (hok : validateRule parse mint draft = .ok r) (hmint : mint ≠ []) :
    loadRulesModel (some (persistRulesPayload [r])) mintF = .ok [r] := by
  have hid : r.id ≠ [] := by
    unfold validateRule at hok
    split at hok
    · exact absurd hok (by simp)
    · split at hok
      · exact absurd hok (by simp)
      · split at hok
        · exact absurd hok (by simp)
        · rw [RuleResult.ok.injEq] at hok
          subst hok
          by_cases hdi : draft.id = [] <;> simp [hdi, hmint]
    
  have hdec := decodeStoredItem_encodeRule (mintF 0) r hid
  simp [loadRulesModel, loadRulesPure, storageGet, assocGetD, assocLookup,
    persistRulesPayload, decodeStoredItems, hdec, Except.bind, bind]

/-- Concrete evaluation of `persist_load_roundtrip_spec`: the
normalized example rule survives a persist-reload cycle unchanged. -/
theorem persist_load_roundtrip_spec_witness :
    loadRulesModel
        (some (persistRulesPayload
          [{ id := "w5".data, enabled := true, source_hostname := "a.example".data,
             target_url := "http://b.example/".data }]))
        (fun _ => "fresh".data) =
      .ok [{ id := "w5".data, enabled := true, source_hostname := "a.example".data,
             target_url := "http://b.example/".data }] :=
  persist_load_roundtrip_spec sampleParse "w6".data (fun _ => "fresh".data)
    { id := "w5".data, enabled := true, source_hostname := "a.example".data,
      target_url := "http://b.example".data }
    { id := "w5".data, enabled := true, source_hostname := "a.example".data,
      target_url := "http://b.example/".data }
    (by decide) (by decide)

/-- C4 counterexample: the claim says any `hourly_rate` that is not a
finite non-negative number yields `{hourly_rate: null}`, but the code
first coerces with `Number(...)`, and `Number(null)` is `0`, so a
stored `{hourly_rate: null}` normalizes to `{hourly_rate: 0}`, not to
the null setting. -/
theorem normalizeSettings_null_rate_counterexample :
    normalizeSettings (.obj [("hourly_rate".data, .null)]) = { hourly_rate := some 0 }
    ∧ ({ hourly_rate := some 0 } : Settings) ≠ { hourly_rate := none } := by
  constructor
  · simp +decide [normalizeSettings, isObjectLike, objField, lookupField, jsToNumber]
  · decide

/-- C4 (amended): `normalizeSettings` returns the null setting when
the raw value is not a truthy object, when the stored field is
missing, when the `Number` coercion of the field is non-finite, or
when the coerced value is negative; a stored non-negative number
passes through unchanged (no rounding) - but non-number values whose
`Number` coercion is finite and non-negative (such as `null`, which
coerces to `0`) are stored as that coercion rather than mapped to
null. -/
theorem normalizeSettings_spec (raw : JSValue) :
    (isObjectLike raw = false → normalizeSettings raw = { hourly_rate := none })
    ∧ (isObjectLike raw = true → objField raw "hourly_rate".data = .undefined →
        normalizeSettings raw = { hourly_rate := none })
    ∧ (∀ v, isObjectLike raw = true → objField raw "hourly_rate".data = v →
        jsToNumber v = none → normalizeSettings raw = { hourly_rate := none })
    ∧ (∀ q : ℚ, isObjectLike raw = true → objField raw "hourly_rate".data = .num q → q < 0 →
        normalizeSettings raw = { hourly_rate := none })
    ∧ (∀ q : ℚ, isObjectLike raw = true → objField raw "hourly_rate".data = .num q → 0 ≤ q →
        normalizeSettings raw = { hourly_rate := some q }) := by
  refine ⟨?_, ?_, ?_, ?_, ?_⟩
  · intro h
    simp [normalizeSettings, h]
  · intro h hf
    simp [normalizeSettings, h, hf, jsToNumber]
  · intro v h hf hv
    simp [normalizeSettings, h, hf, hv]
  · intro q h hf hq
    simp [normalizeSettings, h, hf, jsToNumber, hq]
  · intro q h hf hq
    simp [normalizeSettings, h, hf, jsToNumber, not_lt.mpr hq]

/-- Concrete evaluation of `normalizeSettings_spec`: a stored
non-negative number passes through unchanged. -/
theorem normalizeSettings_spec_witness :
    normalizeSettings (.obj [("hourly_rate".data, .num 12)]) =
      { hourly_rate := some 12 } :=
  (normalizeSettings_spec (.obj [("hourly_rate".data, .num 12)])).2.2.2.2
    12 rfl rfl (by decide)

/-- Whether a stored value is an array (`Array.isArray`). -/
def JSValue.isArr : JSValue → Bool
  | .arr _ => true
  | _ => false

/-- The stored-item traversal of `loadRules` maps item for item: a
successful load has exactly one rule per stored item. -/
theorem decodeStoredItems_length (mint : Nat → List Char) :
    ∀ (items : List JSValue) (i : Nat) (rs : List Rule),
      decodeStoredItems mint i items = .ok rs → rs.length = items.length := by
  intro items
  induction items with
  | nil =>
    intro i rs h
    simp only [decodeStoredItems] at h
    cases h
    rfl
  | cons item rest ih =>
    intro i rs h
    simp only [decodeStoredItems, bind, Except.bind] at h
    cases hd : decodeStoredItem (mint i) item with
    | error e => rw [hd] at h; cases h
    | ok r =>
      rw [hd] at h
      cases hrest : decodeStoredItems mint (i + 1) rest with
      | error e => rw [hrest] at h; cases h
      | ok rs2 =>
        rw [hrest] at h
        cases h
        simp [ih (i + 1) rs2 hrest]

/-- C3 counterexample: the claim says a non-boolean `enabled` becomes
`false`, but `Boolean(item.enabled)` coerces by truthiness, so the
truthy non-boolean string value x loads as `enabled: true`. -/
theorem loadRules_nonboolean_enabled_counterexample :
    loadRulesPure (fun _ => "m1".data) (.arr [.obj [("enabled".data, .str "x".data)]]) =
      .ok [{ id := "m1".data, enabled := true, source_hostname := [], target_url := [] }]
    ∧ ({ id := "m1".data, enabled := true, source_hostname := [], target_url := [] } : Rule).enabled
        ≠ false :=
  ⟨rfl, by decide⟩

/-- C3 (amended): `loadRules` coerces a non-array or missing stored
value to the empty rule list; on an array it maps every item (none is
dropped and none is re-validated - decoding an object item never
fails): a missing id is replaced by the minted one and a nonempty
string id is kept, a missing `enabled` becomes `false`, a boolean
`enabled` is kept, but a truthy non-boolean `enabled` is coerced to
`true` by truthiness rather than to `false`; missing
`source_hostname` or `target_url` become the empty string and string
values are kept verbatim. -/
theorem loadRules_mapping_spec (mint : Nat → List Char) :
    (∀ v : JSValue, v.isArr = false → loadRulesPure mint v = .ok [])
    ∧ (∀ items rs, loadRulesPure mint (.arr items) = .ok rs → rs.length = items.length)
    ∧ (∀ minted fields, ∃ r, decodeStoredItem minted (.obj fields) = .ok r)
    ∧ (∀ minted fields r, decodeStoredItem minted (.obj fields) = .ok r →
        (lookupField fields "id".data = .undefined → r.id = minted)
        ∧ (∀ s, lookupField fields "id".data = .str s → s ≠ [] → r.id = s)
        ∧ (lookupField fields "enabled".data = .undefined → r.enabled = false)
        ∧ (∀ b, lookupField fields "enabled".data = .bool b → r.enabled = b)
        ∧ (∀ w, lookupField fields "enabled".data = w → truthy w = true → r.enabled = true)
        ∧ (lookupField fields "source_hostname".data = .undefined → r.source_hostname = [])
        ∧ (∀ s, lookupField fields "source_hostname".data = .str s → r.source_hostname = s)
        ∧ (lookupField fields "target_url".data = .undefined → r.target_url = [])
        ∧ (∀ s, lookupField fields "target_url".data = .str s → r.target_url = s)) := by
  refine ⟨?_, ?_, ?_, ?_⟩
  · intro v hv
    cases v <;> simp_all [loadRulesPure, JSValue.isArr]
  · intro items rs h
    exact decodeStoredItems_length mint items 0 rs h
  · intro minted fields
    exact ⟨_, rfl⟩
  · intro minted fields r h
    simp only [decodeStoredItem, jsGetField, objField, bind, Except.bind, Except.ok.injEq] at h
    subst h
    refine ⟨?_, ?_, ?_, ?_, ?_, ?_, ?_, ?_, ?_⟩
    · intro hid
      simp [hid, truthy]
    · intro s hid hs
      simp [hid, truthy, hs, jsToString]
    · intro he
      simp [he, truthy]
    · intro b he
      simp [he, truthy]
    · intro w he hw
      simp [he, hw]
    · intro hsv
      simp [hsv, truthy]
    · intro s hsv
      rw [hsv]
      exact truthy_str_roundtrip s
    · intro htv
      simp [htv, truthy]
    · intro s htv
      rw [htv]
      exact truthy_str_roundtrip s

/-- Concrete evaluation of `loadRules_mapping_spec`: a stored boolean
`enabled` is kept. -/
theorem loadRules_mapping_spec_witness :
    ({ id := "w7".data, enabled := true, source_hostname := [], target_url := [] } : Rule).enabled
      = true :=
  ((loadRules_mapping_spec (fun _ => "w7".data)).2.2.2 "w7".data
      [("enabled".data, .bool true)]
      { id := "w7".data, enabled := true, source_hostname := [], target_url := [] }
      rfl).2.2.2.1 true rfl

/-- C6: `validateHourlyRate` accepts empty or whitespace-only input
as valid with value null; when the trimmed input does not coerce to a
finite number it rejects with the not-a-number error; a negative
parse rejects with the negative error; otherwise it accepts the
value rounded to two decimals. In particular the empty string yields
null, the string -1 is rejected as negative, and 12.345 rounds to
12.35. -/
theorem validateHourlyRate_spec (raw : List Char) :
    (jsTrim raw = [] → validateHourlyRate raw = .valid none)
    ∧ (jsTrim raw ≠ [] → jsStrToNumber (jsTrim raw) = none →
        validateHourlyRate raw = .err "Hourly rate must be a valid number.")
    ∧ (∀ q, jsTrim raw ≠ [] → jsStrToNumber (jsTrim raw) = some q → q < 0 →
        validateHourlyRate raw = .err "Hourly rate cannot be negative.")
    ∧ (∀ q, jsTrim raw ≠ [] → jsStrToNumber (jsTrim raw) = some q → 0 ≤ q →
        validateHourlyRate raw = .valid (some (round2 q)))
    ∧ validateHourlyRate "".data = .valid none
    ∧ validateHourlyRate "-1".data = .err "Hourly rate cannot be negative."
    ∧ validateHourlyRate "12.345".data = .valid (some (1235 / 100)) := by
  refine ⟨?_, ?_, ?_, ?_, by decide, by with_unfolding_all decide,
    by with_unfolding_all decide⟩
  · intro h
    simp [validateHourlyRate, h]
  · intro h hn
    simp [validateHourlyRate, h, hn]
  · intro q h hq hneg
    simp [validateHourlyRate, h, hq, hneg]
  · intro q h hq hpos
    simp [validateHourlyRate, h, hq, not_lt.mpr hpos]

/-- Concrete evaluation of `validateHourlyRate_spec`: whitespace-only
input is accepted as the null rate. -/
theorem validateHourlyRate_spec_witness :
    validateHourlyRate "  ".data = .valid none :=
  (validateHourlyRate_spec "  ".data).1 (by decide)

/-- C9: minutes saved are the redirect count times the fixed 17.5
constant; with a set hourly rate the money-saved text is the compact
format of minutes times rate over 60, and the unset rate renders the
zero-currency literal; a value of at least 1000 renders in the
one-decimal dollars-k form, a smaller value in the two-decimal
currency form; at rate 20 and 4 redirects the minutes saved are 70,
rendered 1h 10m, and the money saved renders as 23.33 dollars. -/
theorem derived_metrics_spec :
    (∀ metrics : Metrics, minutesSaved metrics = metrics.total_redirects * (35 / 2 : ℚ))
    ∧ (∀ (rate : ℚ) (metrics : Metrics),
        renderMoneySavedText { hourly_rate := some rate } metrics =
          formatMoneyCompact (minutesSaved metrics * (rate / 60)))
    ∧ (∀ metrics : Metrics,
        renderMoneySavedText { hourly_rate := none } metrics = "$0.00".data)
    ∧ (∀ value : ℚ, 1000 ≤ value →
        formatMoneyCompact value = '$' :: toFixedStr 1 (value / 1000) ++ "k".data)
    ∧ (∀ value : ℚ, value < 1000 → formatMoneyCompact value = formatCurrency value)
    ∧ validateHourlyRate "20".data = .valid (some 20)
    ∧ minutesSaved { total_redirects := 4, per_rule := .obj [] } = 70
    ∧ renderTimeSavedText { total_redirects := 4, per_rule := .obj [] } = "1h 10m".data
    ∧ renderMoneySavedText { hourly_rate := some 20 }
        { total_redirects := 4, per_rule := .obj [] } = "$23.33".data := by
  refine ⟨?_, ?_, ?_, ?_, ?_, ?_, ?_, ?_, ?_⟩
  · intro metrics
    rfl
  · intro rate metrics
    rfl
  · intro metrics
    rfl
  · intro value hv
    simp [formatMoneyCompact, hv]
  · intro value hv
    simp [formatMoneyCompact, not_le.mpr hv]
  · with_unfolding_all decide
  · with_unfolding_all decide
  · with_unfolding_all decide
  · with_unfolding_all decide

/-- Concrete evaluation of `derived_metrics_spec`: 2000 renders in
the compact dollars-k form. -/
theorem derived_metrics_spec_witness :
    formatMoneyCompact 2000 = '$' :: toFixedStr 1 ((2000 : ℚ) / 1000) ++ "k".data :=
  derived_metrics_spec.2.2.2.1 2000 (by decide)

/-- The label shape demanded by `validateHostname`: nonempty, only
characters from the a-z 0-9 hyphen class, and no leading or trailing
hyphen. -/
def GoodLabel (l : List Char) : Prop :=
  l ≠ [] ∧ (∀ c ∈ l, isLabelChar c = true) ∧
  l.head? ≠ some '-' ∧ l.getLast? ≠ some '-'

/-- The acceptance condition of `validateHostname` on the normalized
(trimmed, lowercased) input, stated declaratively: nonempty, free of
slash, space, colon and question mark, at least two dot-separated
labels, every label well-formed. -/
def GoodHostname (n : List Char) : Prop :=
  n ≠ [] ∧ (∀ c ∈ n, c ≠ '/' ∧ c ≠ ' ' ∧ c ≠ ':' ∧ c ≠ '?') ∧
  2 ≤ (n.splitOn '.').length ∧ ∀ l ∈ n.splitOn '.', GoodLabel l

/-- Characters of the label class are unchanged by lowercasing. -/
theorem charToLower_eq_self_of_isLabelChar {c : Char} (h : isLabelChar c = true) :
    charToLower c = c := by
  simp only [isLabelChar, Bool.or_eq_true, Bool.and_eq_true, decide_eq_true_eq] at h
  unfold charToLower
  rw [if_neg (by omega)]

/-- The label loop of `validateHostname` accepts exactly the lists of
well-formed labels. -/
theorem checkLabels_eq_none_iff :
    ∀ ps : List (List Char), checkLabels ps = none ↔ ∀ l ∈ ps, GoodLabel l := by
  intro ps
  induction ps with
  | nil => simp [checkLabels]
  | cons l rest ih =>
    simp only [checkLabels]
    by_cases h1 : l = []
    · simp [if_pos h1, h1, GoodLabel]
    · rw [if_neg h1]
      by_cases h2 : l.all isLabelChar
      · rw [if_neg (by simp [h2])]
        by_cases h3 : l.head? = some '-' ∨ l.getLast? = some '-'
        · rw [if_pos h3]
          simp only [List.forall_mem_cons, GoodLabel]
          constructor
          · intro h
            cases h
          · rintro ⟨⟨_, _, hh, hl⟩, _⟩
            rcases h3 with h3 | h3
            · exact absurd h3 hh
            · exact absurd h3 hl
        · rw [if_neg h3]
          rw [ih, List.forall_mem_cons]
          push_neg at h3
          constructor
          · intro hrest
            exact ⟨⟨h1, List.all_eq_true.mp h2, h3.1, h3.2⟩, hrest⟩
          · exact fun h => h.2
      · rw [if_pos (by simp [h2])]
        simp only [List.forall_mem_cons, GoodLabel]
        constructor
        · intro h
          cases h
        · rintro ⟨⟨_, hall, _, _⟩, _⟩
          exact (h2 (List.all_eq_true.mpr hall)).elim

/-- Membership in an intercalation by a one-character separator comes
either from the separator or from one of the pieces. -/
theorem mem_intercalate_singleton (sep : Char) (ps : List (List Char)) :
    ∀ c : Char, c ∈ [sep].intercalate ps → c = sep ∨ ∃ p ∈ ps, c ∈ p := by
  induction ps with
  | nil =>
    intro c h
    simp [List.intercalate] at h
  | cons p rest ih =>
    intro c h
    cases rest with
    | nil =>
      simp [List.intercalate] at h
      exact .inr ⟨p, by simp, h⟩
    | cons q rest2 =>
      have key : [sep].intercalate (p :: q :: rest2) = p ++ sep :: [sep].intercalate (q :: rest2) := by
        simp [List.intercalate, List.intersperse_cons_cons]
      rw [key] at h
      rcases List.mem_append.mp h with hp | hc
      · exact .inr ⟨p, by simp, hp⟩
      · rcases List.mem_cons.mp hc with hceq | hmem
        · exact .inl hceq
        · rcases ih c hmem with hsep | ⟨p2, hp2, hcp2⟩
          · exact .inl hsep
          · exact .inr ⟨p2, List.mem_cons_of_mem _ hp2, hcp2⟩

/-- A split with at least two pieces means the separator occurs. -/
theorem dot_mem_of_two_le_splitOn {n : List Char} (h : 2 ≤ (n.splitOn '.').length) :
    '.' ∈ n := by
  by_contra hn
  have hs : n.splitOn '.' = [n] := by
    unfold List.splitOn
    apply List.splitOnP_eq_single
    intro x hx
    simp only [beq_iff_eq]
    exact fun he => hn (he ▸ hx)
  rw [hs] at h
  simp at h

/-- Characterization of `validateHostname`: it accepts exactly when
the trimmed, lowercased input satisfies `GoodHostname`, and the
accepted value is that normalized string. -/
theorem validateHostname_ok_iff (raw : List Char) (v : List Char) :
    validateHostname raw = .ok v ↔
      GoodHostname (toLowerCase (jsTrim raw)) ∧ v = toLowerCase (jsTrim raw) := by
  simp only [validateHostname]
  split
  · rename_i h1
    constructor
    · intro h
      cases h
    · rintro ⟨⟨hne, _, _, _⟩, _⟩
      exact absurd h1 hne
  · rename_i h1
    split
    · rename_i h2
      constructor
      · intro h
        cases h
      · rintro ⟨⟨_, hforb, _, _⟩, _⟩
        rcases List.any_eq_true.mp h2 with ⟨c, hc, hcp⟩
        obtain ⟨d1, d2, d3, d4⟩ := hforb c hc
        simp [d1, d2, d3, d4] at hcp
    · rename_i h2
      split
      · rename_i h3
        constructor
        · intro h
          cases h
        · rintro ⟨⟨_, _, hlen, _⟩, _⟩
          omega
      · rename_i h3
        cases hc : checkLabels ((toLowerCase (jsTrim raw)).splitOn '.') with
        | some e =>
          constructor
          · intro h
            cases h
          · rintro ⟨⟨_, _, _, hlab⟩, _⟩
            rw [(checkLabels_eq_none_iff _).mpr hlab] at hc
            cases hc
        | none =>
          constructor
          · intro h
            injection h with hv
            refine ⟨⟨h1, ?_, by omega, (checkLabels_eq_none_iff _).mp hc⟩, hv.symm⟩
            intro c hcmem
            have hnp : ∀ hcc : (c == '/' || c == ' ' || c == ':' || c == '?') = true, False :=
              fun hcc => h2 (List.any_eq_true.mpr ⟨c, hcmem, hcc⟩)
            refine ⟨?_, ?_, ?_, ?_⟩ <;> intro he <;> exact hnp (by simp [he])
          · rintro ⟨⟨_, _, _, _⟩, hv⟩
            rw [hv]

/-- C5: `validateHostname` trims and lowercases its input and rejects
exactly the normalized inputs that are empty, contain slash, space,
colon or question mark, have fewer than two dot-separated labels, or
have an empty or malformed label (characters outside the a-z 0-9
hyphen class, or an edge hyphen); consequently every accepted value
is lowercase (each character is fixed by lowercasing), contains at
least one dot, and splits into labels of exactly that shape. -/
theorem validateHostname_charset_spec (raw : List Char) :
    ((∃ v, validateHostname raw = .ok v) ↔ GoodHostname (toLowerCase (jsTrim raw)))
    ∧ (∀ v, validateHostname raw = .ok v →
        v = toLowerCase (jsTrim raw)
        ∧ (∀ c ∈ v, charToLower c = c)
        ∧ '.' ∈ v
        ∧ (∀ l ∈ v.splitOn '.', GoodLabel l)) := by
  constructor
  · constructor
    · rintro ⟨v, hv⟩
      exact ((validateHostname_ok_iff raw v).mp hv).1
    · intro hg
      exact ⟨_, (validateHostname_ok_iff raw _).mpr ⟨hg, rfl⟩⟩
  · intro v hv
    obtain ⟨hg, hveq⟩ := (validateHostname_ok_iff raw v).mp hv
    obtain ⟨hne, hforb, hlen, hlab⟩ := hveq ▸ hg
    refine ⟨hveq, ?_, dot_mem_of_two_le_splitOn hlen, hlab⟩
    intro c hc
    have hvi : v = ['.'].intercalate (v.splitOn '.') := (List.intercalate_splitOn v '.').symm
    rw [hvi] at hc
    rcases mem_intercalate_singleton '.' (v.splitOn '.') c hc with hdot | ⟨p, hp, hcp⟩
    · rw [hdot]
      decide
    · exact charToLower_eq_self_of_isLabelChar ((hlab p hp).2.1 c hcp)

/-- Concrete evaluation of `validateHostname_charset_spec`: the
accepted value for the input A.com is the lowercased a.com with
well-formed labels. -/
theorem validateHostname_charset_spec_witness :
    "a.com".data = toLowerCase (jsTrim "A.com".data)
    ∧ (∀ c ∈ "a.com".data, charToLower c = c)
    ∧ '.' ∈ "a.com".data
    ∧ (∀ l ∈ "a.com".data.splitOn '.', GoodLabel l) :=
  (validateHostname_charset_spec "A.com".data).2 "a.com".data (by decide)
